import Mathlib

/-!
Shallow embedding of the keyword router (`RouterAgent` in the source) and of
the model discovery service (`ModelDiscoveryService`), together with proofs
of the behavioural properties stated in the design document.

Conventions of the embedding:
* JavaScript strings are Lean `String`s; `String.prototype.toLowerCase` is
  modelled by `strToLower` (per-character ASCII lowering) and
  `String.prototype.includes` by the decidable substring test `strIncludes`.
* The stateful discovery service is modelled by explicit state passing: each
  method takes the `CachedModels` state (plus the current clock value and the
  outcome of the single network fetch it may perform) and returns its result
  together with the state after the call.
* JavaScript numbers used for prices are modelled by rationals; `parseFloat`
  of a pricing string is modelled by the rational value it denotes.
-/

namespace IAF

/-- JS `s.toLowerCase()`: per-character lowering (ASCII case folding). -/
def strToLower (s : String) : String :=
  ⟨s.data.map Char.toLower⟩

/-- JS `haystack.includes(needle)`: substring containment test. -/
def strIncludes (hay sub : String) : Bool :=
  decide (sub.toList <:+: hay.toList)

/-- The agent persona identifiers (`AgentName` in the source types). -/
inductive AgentName
  | security
  | writer
  | advisor
  | legal
  | director
deriving DecidableEq, Fintype

/-- A routing rule: keyword list plus target agent (`RoutingRule`). -/
structure RoutingRule where
  keywords : List String
  agent : AgentName
deriving DecidableEq

/-- Keywords of the first registered rule (agent `security`). -/
def securityKeywords : List String :=
  ["pentest", "penetration test", "penetration testing", "hackerone",
   "bug bounty", "vulnerability", "security test", "security assessment",
   "red team", "exploitation", "scanner", "nmap", "burp", "cve", "exploit"]

/-- Keywords of the second registered rule (agent `writer`). -/
def writerKeywords : List String :=
  ["blog", "write", "post", "article", "content", "ghost", "cms",
   "newsletter", "documentation", "technical writing", "tutorial",
   "guide", "how-to"]

/-- Keywords of the third registered rule (agent `advisor`). -/
def advisorKeywords : List String :=
  ["research", "investigate", "osint", "intelligence", "find", "search",
   "analyze data", "job analysis", "job posting", "career", "resume",
   "strengths", "cliftonstrengths"]

/-- Keywords of the fourth registered rule (agent `legal`). -/
def legalKeywords : List String :=
  ["legal", "compliance", "gdpr", "contract", "license", "law",
   "regulation", "privacy", "tos", "terms"]

/-- The routing rule table, in registration order (`RouterAgent.routingRules`). -/
def routingRules : List RoutingRule :=
  [{ keywords := securityKeywords, agent := AgentName.security },
   { keywords := writerKeywords, agent := AgentName.writer },
   { keywords := advisorKeywords, agent := AgentName.advisor },
   { keywords := legalKeywords, agent := AgentName.legal }]

/-- The inner keyword loop of `route` (and of `testRoute`): for every keyword
contained in the (already lowered) message add 10 points and record the
keyword, in keyword-list order. -/
def scanRule (msg : String) : List String → Nat × List String
  | [] => (0, [])
  | kw :: kws =>
      let rest := scanRule msg kws
      if strIncludes msg kw then (10 + rest.1, kw :: rest.2) else rest

/-- The `scores` record of `route`: each rule's keyword loop accumulates into
the entry of that rule's agent. The four rules carry pairwise distinct agents
(security, writer, advisor, legal, in that order), so each of those entries is
exactly the scan of its own rule's keywords, and `director`, which has no
rule, keeps its initial value `(0, [])`. -/
def scores (msg : String) : AgentName → Nat × List String
  | AgentName.security => scanRule msg securityKeywords
  | AgentName.writer => scanRule msg writerKeywords
  | AgentName.advisor => scanRule msg advisorKeywords
  | AgentName.legal => scanRule msg legalKeywords
  | AgentName.director => (0, [])

/-- Iteration order of `Object.entries(scores)`: insertion order of the
record literal in `route`. -/
def entryOrder : List AgentName :=
  [AgentName.security, AgentName.writer, AgentName.advisor,
   AgentName.legal, AgentName.director]

/-- Position of an agent in the `scores` record iteration order; for the four
rule agents this is also the registration position of their rule. -/
def entryIndex : AgentName → Nat
  | AgentName.security => 0
  | AgentName.writer => 1
  | AgentName.advisor => 2
  | AgentName.legal => 3
  | AgentName.director => 4

/-- The best-agent selection loop of `route`: scan the entries in order,
keeping the candidate only on a strictly larger score (`data.score >
bestScore`), starting from `(null, 0)`. -/
def selectBest (msg : String) : Option AgentName × Nat :=
  entryOrder.foldl
    (fun best a => if (scores msg a).1 > best.2 then (some a, (scores msg a).1) else best)
    (none, 0)

/-- Result of a successful routing attempt (`RoutingDecision`). -/
structure RoutingDecision where
  agent : AgentName
  confidence : ℚ
  reason : String
deriving DecidableEq

/-- Literal text in front of the matched-keyword list of the reason string. -/
def reasonHeader : String := "Matched keywords: "

/-- The separator used by `join(', ')`. -/
def commaSep : String := ", "

/-- The reason string built by `route`: header plus the first at most three
matched keywords, comma-joined. -/
def mkReason (matched : List String) : String :=
  reasonHeader ++ String.intercalate commaSep (matched.take 3)

/-- `RouterAgent.route`: lower the message, score every rule, pick the
best-scoring agent (strictly-greater comparison, entries in record order) and
return a decision when the best score is positive, `null` otherwise. -/
def route (message : String) : Option RoutingDecision :=
  let lowerMessage := strToLower message
  let best := selectBest lowerMessage
  match best.1 with
  | some bestAgent =>
      if best.2 > 0 then
        some { agent := bestAgent
               confidence := min ((best.2 : ℚ) / 100) 1
               reason := mkReason (scores lowerMessage bestAgent).2 }
      else none
  | none => none

/-- The score of agent `a` accumulated by `route message` (after lowering). -/
def agentScore (message : String) (a : AgentName) : Nat :=
  (scores (strToLower message) a).1

/-- The winning score held in `bestScore` when `route message` returns. -/
def routeScore (message : String) : Nat :=
  (selectBest (strToLower message)).2

/-- One entry of the `testRoute` result list. -/
structure TestRouteEntry where
  agent : AgentName
  score : Nat
  matched : List String
deriving DecidableEq

/-- One insertion step of a stable sort: `x` is placed in front of the first
element that must come strictly after it. -/
def stableInsert {α : Type} (lt : α → α → Bool) (x : α) : List α → List α
  | [] => [x]
  | y :: ys => if lt x y then x :: y :: ys else y :: stableInsert lt x ys

/-- Stable sort (insertion sort, elements taken in list order) with strict
order `lt`; models the stable `Array.prototype.sort` of the source: elements
the comparator ties keep their original relative order. -/
def stableSort {α : Type} (lt : α → α → Bool) (l : List α) : List α :=
  l.foldl (fun acc x => stableInsert lt x acc) []

/-- Comparator of `testRoute`'s sort, `(a, b) => b.score - a.score`: `a`
comes strictly before `b` when its score is strictly larger. -/
def scoreGt (a b : TestRouteEntry) : Bool :=
  decide (b.score < a.score)

/-- `RouterAgent.testRoute`: collect, in rule registration order, an entry
for every rule with at least one matched keyword, then sort the entries by
descending score with a stable sort. -/
def testRoute (message : String) : List TestRouteEntry :=
  let lowerMessage := strToLower message
  let results := routingRules.foldl
    (fun rs rule =>
      let sm := scanRule lowerMessage rule.keywords
      if sm.2.length > 0 then
        rs ++ [{ agent := rule.agent, score := sm.1, matched := sm.2 }]
      else rs)
    []
  stableSort scoreGt results

/-! Lemmas about the keyword scan. -/

lemma scanRule_snd (msg : String) (kws : List String) :
    (scanRule msg kws).2 = kws.filter (fun kw => strIncludes msg kw) := by
  induction kws with
  | nil => rfl
  | cons kw kws ih =>
      simp only [scanRule, List.filter_cons]
      by_cases h : strIncludes msg kw = true
      · simp [h, ih]
      · simp [h, ih]

lemma scanRule_fst (msg : String) (kws : List String) :
    (scanRule msg kws).1 = 10 * (scanRule msg kws).2.length := by
  induction kws with
  | nil => rfl
  | cons kw kws ih =>
      simp only [scanRule]
      by_cases h : strIncludes msg kw = true
      · simp [h, ih]; ring
      · simp [h, ih]

lemma scanRule_fst_eq_zero_iff (msg : String) (kws : List String) :
    (scanRule msg kws).1 = 0 ↔ ∀ kw ∈ kws, strIncludes msg kw = false := by
  rw [scanRule_fst, scanRule_snd]
  simp [List.filter_eq_nil_iff, List.length_eq_zero]

lemma scanRule_congr (m1 m2 : String) (kws : List String)
    (h : ∀ kw ∈ kws, strIncludes m1 kw = strIncludes m2 kw) :
    scanRule m1 kws = scanRule m2 kws := by
  induction kws with
  | nil => rfl
  | cons kw kws ih =>
      simp only [scanRule]
      rw [h kw (List.mem_cons_self kw kws),
        ih (fun k hk => h k (List.mem_cons_of_mem kw hk))]

/-! Analysis of the best-agent selection loop. -/

/-- The selection loop applied to four abstract rule scores (the director
entry always carries score 0). -/
def pick4 (s1 s2 s3 s4 : Nat) : Option AgentName × Nat :=
  [(AgentName.security, s1), (AgentName.writer, s2), (AgentName.advisor, s3),
   (AgentName.legal, s4), (AgentName.director, 0)].foldl
    (fun best p => if p.2 > best.2 then (some p.1, p.2) else best) (none, 0)

/-- Read the abstract score of an agent back off. -/
def sget (s1 s2 s3 s4 : Nat) : AgentName → Nat
  | AgentName.security => s1
  | AgentName.writer => s2
  | AgentName.advisor => s3
  | AgentName.legal => s4
  | AgentName.director => 0

lemma selectBest_eq_pick4 (msg : String) :
    selectBest msg = pick4 (scores msg AgentName.security).1
      (scores msg AgentName.writer).1 (scores msg AgentName.advisor).1
      (scores msg AgentName.legal).1 := rfl

lemma scores_eq_sget (msg : String) (b : AgentName) :
    (scores msg b).1 = sget (scores msg AgentName.security).1
      (scores msg AgentName.writer).1 (scores msg AgentName.advisor).1
      (scores msg AgentName.legal).1 b := by
  cases b <;> rfl

lemma pick4_none_iff (s1 s2 s3 s4 : Nat) :
    (pick4 s1 s2 s3 s4).1 = none ↔ s1 = 0 ∧ s2 = 0 ∧ s3 = 0 ∧ s4 = 0 := by
  simp only [pick4, List.foldl_cons, List.foldl_nil]
  split_ifs <;> simp_all <;> omega

lemma pick4_some_spec (s1 s2 s3 s4 : Nat) (a : AgentName)
    (h : (pick4 s1 s2 s3 s4).1 = some a) :
    (pick4 s1 s2 s3 s4).2 = sget s1 s2 s3 s4 a ∧ 0 < sget s1 s2 s3 s4 a ∧
    (∀ b, sget s1 s2 s3 s4 b ≤ sget s1 s2 s3 s4 a) ∧
    (∀ b, sget s1 s2 s3 s4 b = sget s1 s2 s3 s4 a → entryIndex a ≤ entryIndex b) := by
  revert h
  simp only [pick4, List.foldl_cons, List.foldl_nil, gt_iff_lt]
  split_ifs <;> intro h <;> simp only [Option.some.injEq] at h <;>
    first
    | exact absurd h (by simp)
    | (subst h
       refine ⟨rfl, ?_, fun b => ?_, fun b => ?_⟩
       · simp_all [sget] <;> omega
       · rcases b <;> simp_all [sget] <;> omega
       · rcases b <;> simp_all [sget, entryIndex] <;> omega)

lemma selectBest_some_pos (msg : String) (a : AgentName)
    (h : (selectBest msg).1 = some a) : 0 < (selectBest msg).2 := by
  rw [selectBest_eq_pick4] at h ⊢
  obtain ⟨h1, h2, -, -⟩ := pick4_some_spec _ _ _ _ _ h
  omega

lemma route_some_elim (message : String) (d : RoutingDecision)
    (h : route message = some d) :
    (selectBest (strToLower message)).1 = some d.agent ∧
    d.confidence = min (((selectBest (strToLower message)).2 : ℚ) / 100) 1 ∧
    d.reason = mkReason (scores (strToLower message) d.agent).2 := by
  simp only [route] at h
  cases hsel : (selectBest (strToLower message)).1 with
  | none => rw [hsel] at h; simp at h
  | some a =>
      rw [hsel] at h
      simp only [gt_iff_lt] at h
      split_ifs at h with hp
      · rw [Option.some.injEq] at h
        subst h
        exact ⟨rfl, rfl, rfl⟩

lemma route_eq_none_iff (message : String) :
    route message = none ↔ (selectBest (strToLower message)).1 = none := by
  constructor
  · intro h
    cases hsel : (selectBest (strToLower message)).1 with
    | none => rfl
    | some a =>
        exfalso
        have hp := selectBest_some_pos _ _ hsel
        simp only [route] at h
        rw [hsel] at h
        simp [hp] at h
  · intro h
    simp only [route]
    rw [h]

lemma scores_congr (m1 m2 : String)
    (h : ∀ rule ∈ routingRules, ∀ kw ∈ rule.keywords,
      strIncludes m1 kw = strIncludes m2 kw) :
    ∀ a, scores m1 a = scores m2 a := by
  intro a
  cases a <;> simp only [scores]
  · exact scanRule_congr _ _ _
      (h { keywords := securityKeywords, agent := AgentName.security } (by simp [routingRules]))
  · exact scanRule_congr _ _ _
      (h { keywords := writerKeywords, agent := AgentName.writer } (by simp [routingRules]))
  · exact scanRule_congr _ _ _
      (h { keywords := advisorKeywords, agent := AgentName.advisor } (by simp [routingRules]))
  · exact scanRule_congr _ _ _
      (h { keywords := legalKeywords, agent := AgentName.legal } (by simp [routingRules]))

lemma selectBest_congr (m1 m2 : String) (hs : ∀ a, scores m1 a = scores m2 a) :
    selectBest m1 = selectBest m2 := by
  simp only [selectBest, entryOrder, List.foldl_cons, List.foldl_nil, hs]

/-! Claims about the router. -/

/-- C1: when `route` returns a decision, the chosen persona's score is the
highest, and any persona whose score equals it sits at the same or a later
position of the registered rule order (security, writer, advisor, legal),
so on an equal highest score the earlier-registered persona is returned. -/
theorem route_tie_first_registered (message : String) (d : RoutingDecision)
    (h : route message = some d) :
    ∀ a : AgentName, agentScore message a ≤ agentScore message d.agent ∧
      (agentScore message a = agentScore message d.agent →
        entryIndex d.agent ≤ entryIndex a) := by
  obtain ⟨hsel, -, -⟩ := route_some_elim message d h
  rw [selectBest_eq_pick4] at hsel
  obtain ⟨-, -, hmax, htie⟩ := pick4_some_spec _ _ _ _ _ hsel
  intro a
  have ha := scores_eq_sget (strToLower message) a
  have hd := scores_eq_sget (strToLower message) d.agent
  refine ⟨?_, fun he => ?_⟩
  · simp only [agentScore, ha, hd]
    exact hmax a
  · simp only [agentScore, ha, hd] at he
    exact htie a he

/-- Text matching exactly one security keyword and one writer keyword. -/
def tieText : String := "pentest blog"

/-- Witness for C1: on "pentest blog" security and writer tie at 10 and the
first-registered persona (security) is returned. -/
theorem route_tie_first_registered_witness :
    (route tieText).map RoutingDecision.agent = some AgentName.security ∧
    agentScore tieText AgentName.writer = agentScore tieText AgentName.security ∧
    entryIndex AgentName.security ≤ entryIndex AgentName.writer := by
  have hmap : (route tieText).map RoutingDecision.agent = some AgentName.security := by
    decide
  have hsc : agentScore tieText AgentName.writer = agentScore tieText AgentName.security := by
    decide
  refine ⟨hmap, hsc, ?_⟩
  cases hr : route tieText with
  | none => rw [hr] at hmap; exact absurd hmap (by simp)
  | some d =>
      have hag : d.agent = AgentName.security := by
        rw [hr] at hmap
        simpa using hmap
      have hd := (route_tie_first_registered tieText d hr AgentName.writer).2
      rw [hag] at hd
      exact hd hsc

/-- C2: `route` returns null exactly when no rule keyword occurs as a
substring of the lower-cased text; otherwise it decides for a persona of
strictly highest score, with confidence min(score/100, 1), hence within
[0,1], and a reason joining at most the first three matched keywords
with ", ". -/
theorem route_null_iff_and_decision_shape (message : String) :
    (route message = none ↔
      ∀ rule ∈ routingRules, ∀ kw ∈ rule.keywords,
        strIncludes (strToLower message) kw = false) ∧
    ∀ d : RoutingDecision, route message = some d →
      (∀ a, agentScore message a ≤ agentScore message d.agent) ∧
      0 < agentScore message d.agent ∧
      d.confidence = min ((routeScore message : ℚ) / 100) 1 ∧
      0 ≤ d.confidence ∧ d.confidence ≤ 1 ∧
      d.reason = reasonHeader ++
        String.intercalate commaSep ((scores (strToLower message) d.agent).2.take 3) := by
  constructor
  · rw [route_eq_none_iff, selectBest_eq_pick4, pick4_none_iff]
    constructor
    · rintro ⟨h1, h2, h3, h4⟩ rule hr kw hk
      fin_cases hr
      · exact (scanRule_fst_eq_zero_iff _ _).mp h1 kw hk
      · exact (scanRule_fst_eq_zero_iff _ _).mp h2 kw hk
      · exact (scanRule_fst_eq_zero_iff _ _).mp h3 kw hk
      · exact (scanRule_fst_eq_zero_iff _ _).mp h4 kw hk
    · intro h
      refine ⟨(scanRule_fst_eq_zero_iff _ _).mpr ?_,
        (scanRule_fst_eq_zero_iff _ _).mpr ?_,
        (scanRule_fst_eq_zero_iff _ _).mpr ?_,
        (scanRule_fst_eq_zero_iff _ _).mpr ?_⟩
      · exact h { keywords := securityKeywords, agent := AgentName.security }
          (by simp [routingRules])
      · exact h { keywords := writerKeywords, agent := AgentName.writer }
          (by simp [routingRules])
      · exact h { keywords := advisorKeywords, agent := AgentName.advisor }
          (by simp [routingRules])
      · exact h { keywords := legalKeywords, agent := AgentName.legal }
          (by simp [routingRules])
  · intro d hd
    obtain ⟨hsel, hconf, hreason⟩ := route_some_elim message d hd
    rw [selectBest_eq_pick4] at hsel
    obtain ⟨-, hpos, hmax, -⟩ := pick4_some_spec _ _ _ _ _ hsel
    refine ⟨?_, ?_, hconf, ?_, ?_, hreason⟩
    · intro a
      simp only [agentScore, scores_eq_sget (strToLower message) a,
        scores_eq_sget (strToLower message) d.agent]
      exact hmax a
    · simp only [agentScore, scores_eq_sget (strToLower message) d.agent]
      exact hpos
    · rw [hconf]
      exact le_min (by positivity) (by norm_num)
    · rw [hconf]
      exact min_le_right _ _

/-- Witness text whose routing decision exercises the C2 decision shape. -/
def decisionText : String := "blog exploit vulnerability"

/-- Witness for C2, covering both the null case (a text with no keyword)
and the non-null case (confidence and reason shape at a concrete text). -/
theorem route_null_iff_and_decision_shape_witness :
    route "hello there" = none ∧
    ∃ d : RoutingDecision, route decisionText = some d ∧
      d.confidence = min ((routeScore decisionText : ℚ) / 100) 1 ∧
      0 ≤ d.confidence ∧ d.confidence ≤ 1 := by
  refine ⟨(route_null_iff_and_decision_shape "hello there").1.mpr (by decide), ?_⟩
  cases hr : route decisionText with
  | none =>
      exfalso
      have hs : (route decisionText).isSome = true := by decide
      rw [hr] at hs
      simp at hs
  | some d =>
      obtain ⟨-, -, h1, h2, h3, -⟩ :=
        (route_null_iff_and_decision_shape decisionText).2 d hr
      exact ⟨d, rfl, h1, h2, h3⟩

/-- C7: the scoring is presence-based, so any two texts on which every rule
keyword has the same presence get identical scores and identical routing
decisions; repeated occurrences of an already-matched keyword cannot add to
the score. -/
theorem route_presence_based (t t' : String)
    (h : ∀ rule ∈ routingRules, ∀ kw ∈ rule.keywords,
      strIncludes (strToLower t) kw = strIncludes (strToLower t') kw) :
    (∀ a, agentScore t a = agentScore t' a) ∧ route t = route t' := by
  have hs := scores_congr _ _ h
  refine ⟨fun a => by simp only [agentScore, hs], ?_⟩
  simp only [route, selectBest_congr _ _ hs, hs]

/-- Witness for C7: "pentest pentest pentest" scores and routes exactly as
"pentest". -/
theorem route_presence_based_witness :
    (∀ a, agentScore "pentest" a = agentScore "pentest pentest pentest" a) ∧
    route "pentest" = route "pentest pentest pentest" :=
  route_presence_based "pentest" "pentest pentest pentest" (by decide)

/-! Head of a stable insertion sort: the running "front element" of the fold.
`chooseFirst lt h l` is the element the comparator puts in front after all of
`l` has been inserted into a list whose front element is `h`; an element only
takes the front slot from the current holder when the comparator puts it
strictly earlier, so the earliest element of an extremal comparator class
keeps it. -/

def chooseFirst {α : Type} (lt : α → α → Bool) : Option α → List α → Option α
  | h, [] => h
  | none, x :: l => chooseFirst lt (some x) l
  | some y, x :: l =>
      if lt x y then chooseFirst lt (some x) l else chooseFirst lt (some y) l

lemma stableInsert_head_nil {α : Type} (lt : α → α → Bool) (x : α) :
    (stableInsert lt x []).head? = some x := rfl

lemma stableSort_head_aux {α : Type} (lt : α → α → Bool) :
    ∀ (l acc : List α),
      (l.foldl (fun acc x => stableInsert lt x acc) acc).head? =
        chooseFirst lt acc.head? l := by
  intro l
  induction l with
  | nil => intro acc; cases acc <;> rfl
  | cons x l ih =>
      intro acc
      rw [List.foldl_cons, ih]
      cases acc with
      | nil => rfl
      | cons y ys =>
          simp only [stableInsert, List.head?_cons, chooseFirst]
          split_ifs with hxy <;> simp [chooseFirst, hxy]

lemma stableSort_head {α : Type} (lt : α → α → Bool) (l : List α) :
    (stableSort lt l).head? = chooseFirst lt none l :=
  stableSort_head_aux lt l []

lemma chooseFirst_some_spec {α : Type} (lt : α → α → Bool)
    (htrans : ∀ a b c, lt a b = true → lt b c = true → lt a c = true)
    (hirr : ∀ a, lt a a = false)
    (hcross : ∀ a b c, lt a b = true → lt c b = false → lt a c = true) :
    ∀ (l : List α) (y m : α), chooseFirst lt (some y) l = some m →
      (m = y ∧ ∀ x ∈ l, lt x y = false) ∨
      (∃ l₁ l₂, l = l₁ ++ m :: l₂ ∧ lt m y = true ∧
        (∀ x ∈ l₁, lt m x = true) ∧ (∀ x ∈ l, lt x m = false)) := by
  intro l
  induction l with
  | nil =>
      intro y m hm
      simp only [chooseFirst, Option.some.injEq] at hm
      exact Or.inl ⟨hm.symm, by simp⟩
  | cons x l ih =>
      intro y m hm
      simp only [chooseFirst] at hm
      by_cases hxy : lt x y = true
      · rw [if_pos hxy] at hm
        rcases ih x m hm with ⟨rfl, hall⟩ | ⟨l₁, l₂, heq, hmx, hl₁, hall⟩
        · refine Or.inr ⟨[], l, rfl, hxy, by simp, ?_⟩
          intro z hz
          rcases List.mem_cons.mp hz with rfl | hz
          · exact hirr z
          · exact hall z hz
        · refine Or.inr ⟨x :: l₁, l₂, by rw [heq]; rfl, htrans m x y hmx hxy, ?_, ?_⟩
          · intro z hz
            rcases List.mem_cons.mp hz with rfl | hz
            · exact hmx
            · exact hl₁ z hz
          · intro z hz
            rcases List.mem_cons.mp hz with rfl | hz
            · cases hzm : lt z m
              · rfl
              · exact absurd (hirr m) (by rw [htrans m z m hmx hzm]; simp)
            · exact hall z hz
      · rw [if_neg hxy] at hm
        have hxy' : lt x y = false := by
          cases h : lt x y
          · rfl
          · exact absurd h hxy
        rcases ih y m hm with ⟨rfl, hall⟩ | ⟨l₁, l₂, heq, hmy, hl₁, hall⟩
        · refine Or.inl ⟨rfl, ?_⟩
          intro z hz
          rcases List.mem_cons.mp hz with rfl | hz
          · exact hxy'
          · exact hall z hz
        · refine Or.inr ⟨x :: l₁, l₂, by rw [heq]; rfl, hmy, ?_, ?_⟩
          · intro z hz
            rcases List.mem_cons.mp hz with rfl | hz
            · exact hcross m y z hmy hxy'
            · exact hl₁ z hz
          · intro z hz
            rcases List.mem_cons.mp hz with rfl | hz
            · cases hzm : lt z m
              · rfl
              · exact absurd (htrans z m y hzm hmy) (by rw [hxy']; simp)
            · exact hall z hz

lemma chooseFirst_none_spec {α : Type} (lt : α → α → Bool)
    (htrans : ∀ a b c, lt a b = true → lt b c = true → lt a c = true)
    (hirr : ∀ a, lt a a = false)
    (hcross : ∀ a b c, lt a b = true → lt c b = false → lt a c = true)
    (l : List α) (m : α) (hm : chooseFirst lt none l = some m) :
    ∃ l₁ l₂, l = l₁ ++ m :: l₂ ∧
      (∀ x ∈ l₁, lt m x = true) ∧ (∀ x ∈ l, lt x m = false) := by
  cases l with
  | nil => exact absurd hm (by simp [chooseFirst])
  | cons x l =>
      simp only [chooseFirst] at hm
      rcases chooseFirst_some_spec lt htrans hirr hcross l x m hm with
        ⟨rfl, hall⟩ | ⟨l₁, l₂, heq, hmx, hl₁, hall⟩
      · refine ⟨[], l, rfl, by simp, ?_⟩
        intro z hz
        rcases List.mem_cons.mp hz with rfl | hz
        · exact hirr z
        · exact hall z hz
      · refine ⟨x :: l₁, l₂, by rw [heq]; rfl, ?_, ?_⟩
        · intro z hz
          rcases List.mem_cons.mp hz with rfl | hz
          · exact hmx
          · exact hl₁ z hz
        · intro z hz
          rcases List.mem_cons.mp hz with rfl | hz
          · cases hzm : lt z m
            · rfl
            · exact absurd (hirr m) (by rw [htrans m z m hmx hzm]; simp)
          · exact hall z hz

/-- C10: whenever `route` returns a decision, `testRoute` on the same text is
non-empty, its first entry names the same agent, and that entry's score is the
winning score of `route`. -/
theorem testRoute_agrees_with_route (message : String) (d : RoutingDecision)
    (h : route message = some d) :
    (testRoute message).head?.map TestRouteEntry.agent = some d.agent ∧
    (testRoute message).head?.map TestRouteEntry.score = some (routeScore message) := by
  obtain ⟨hsel, -, -⟩ := route_some_elim message d h
  rw [selectBest_eq_pick4] at hsel
  obtain ⟨h2, hpos, hmax, htie⟩ := pick4_some_spec _ _ _ _ _ hsel
  have hrs : routeScore message = sget
      (scores (strToLower message) AgentName.security).1
      (scores (strToLower message) AgentName.writer).1
      (scores (strToLower message) AgentName.advisor).1
      (scores (strToLower message) AgentName.legal).1 d.agent := by
    rw [routeScore, selectBest_eq_pick4]
    exact h2
  have e1 := scanRule_fst (strToLower message) securityKeywords
  have e2 := scanRule_fst (strToLower message) writerKeywords
  have e3 := scanRule_fst (strToLower message) advisorKeywords
  have e4 := scanRule_fst (strToLower message) legalKeywords
  have hm1 := hmax AgentName.security
  have hm2 := hmax AgentName.writer
  have hm3 := hmax AgentName.advisor
  have hm4 := hmax AgentName.legal
  have ht1 := htie AgentName.security
  have ht2 := htie AgentName.writer
  have ht3 := htie AgentName.advisor
  have ht4 := htie AgentName.legal
  clear h2 hsel hmax htie
  rw [hrs]
  clear hrs
  simp only [testRoute, routingRules, List.foldl_cons, List.foldl_nil]
  rw [stableSort_head]
  cases hda : d.agent
  case security =>
      rw [hda] at hpos hm2 hm3 hm4
      simp only [sget, scores, entryIndex] at hpos hm2 hm3 hm4 ⊢
      split_ifs with hc1 hc2 hc3 hc4 <;>
        simp only [List.nil_append, List.cons_append, List.append_nil,
          chooseFirst, scoreGt, decide_eq_true_eq] <;>
        (try refine ⟨?_, ?_⟩) <;>
        (try split_ifs) <;>
        simp only [Option.map_some', Option.map_none', Option.some.injEq] <;>
        (first | rfl | omega)
  case writer =>
      rw [hda] at hpos hm1 hm3 hm4 ht1
      simp only [sget, scores, entryIndex] at hpos hm1 hm3 hm4 ht1 ⊢
      have hlt1 : (scanRule (strToLower message) securityKeywords).1 <
          (scanRule (strToLower message) writerKeywords).1 :=
        Nat.lt_of_le_of_ne hm1 (fun hh => absurd (ht1 hh) (by omega))
      clear ht1 ht2 ht3 ht4
      split_ifs with hc1 hc2 hc3 hc4 <;>
        simp only [List.nil_append, List.cons_append, List.append_nil,
          chooseFirst, scoreGt, decide_eq_true_eq] <;>
        (try refine ⟨?_, ?_⟩) <;>
        (try split_ifs) <;>
        simp only [Option.map_some', Option.map_none', Option.some.injEq] <;>
        (first | rfl | omega)
  case advisor =>
      rw [hda] at hpos hm1 hm2 hm4 ht1 ht2
      simp only [sget, scores, entryIndex] at hpos hm1 hm2 hm4 ht1 ht2 ⊢
      have hlt1 : (scanRule (strToLower message) securityKeywords).1 <
          (scanRule (strToLower message) advisorKeywords).1 :=
        Nat.lt_of_le_of_ne hm1 (fun hh => absurd (ht1 hh) (by omega))
      have hlt2 : (scanRule (strToLower message) writerKeywords).1 <
          (scanRule (strToLower message) advisorKeywords).1 :=
        Nat.lt_of_le_of_ne hm2 (fun hh => absurd (ht2 hh) (by omega))
      clear ht1 ht2 ht3 ht4
      split_ifs with hc1 hc2 hc3 hc4 <;>
        simp only [List.nil_append, List.cons_append, List.append_nil,
          chooseFirst, scoreGt, decide_eq_true_eq] <;>
        (try refine ⟨?_, ?_⟩) <;>
        (try split_ifs) <;>
        simp only [Option.map_some', Option.map_none', Option.some.injEq] <;>
        (first | rfl | omega)
  case legal =>
      rw [hda] at hpos hm1 hm2 hm3 ht1 ht2 ht3
      simp only [sget, scores, entryIndex] at hpos hm1 hm2 hm3 ht1 ht2 ht3 ⊢
      have hlt1 : (scanRule (strToLower message) securityKeywords).1 <
          (scanRule (strToLower message) legalKeywords).1 :=
        Nat.lt_of_le_of_ne hm1 (fun hh => absurd (ht1 hh) (by omega))
      have hlt2 : (scanRule (strToLower message) writerKeywords).1 <
          (scanRule (strToLower message) legalKeywords).1 :=
        Nat.lt_of_le_of_ne hm2 (fun hh => absurd (ht2 hh) (by omega))
      have hlt3 : (scanRule (strToLower message) advisorKeywords).1 <
          (scanRule (strToLower message) legalKeywords).1 :=
        Nat.lt_of_le_of_ne hm3 (fun hh => absurd (ht3 hh) (by omega))
      clear ht1 ht2 ht3 ht4
      split_ifs with hc1 hc2 hc3 hc4 <;>
        simp only [List.nil_append, List.cons_append, List.append_nil,
          chooseFirst, scoreGt, decide_eq_true_eq] <;>
        (try refine ⟨?_, ?_⟩) <;>
        (try split_ifs) <;>
        simp only [Option.map_some', Option.map_none', Option.some.injEq] <;>
        (first | rfl | omega)
  case director =>
      rw [hda] at hpos
      simp only [sget] at hpos
      exact absurd hpos (by omega)

/-- Witness for C10 at the text "blog exploit vulnerability": security wins
and `testRoute`'s first entry agrees in agent and score. -/
theorem testRoute_agrees_with_route_witness :
    (testRoute decisionText).head?.map TestRouteEntry.agent =
      some AgentName.security ∧
    (testRoute decisionText).head?.map TestRouteEntry.score =
      some (routeScore decisionText) := by
  cases hr : route decisionText with
  | none =>
      exfalso
      have hs : (route decisionText).isSome = true := by decide
      rw [hr] at hs
      simp at hs
  | some d =>
      have hag : d.agent = AgentName.security := by
        have hmap : (route decisionText).map RoutingDecision.agent =
            some AgentName.security := by decide
        rw [hr] at hmap
        simpa using hmap
      obtain ⟨h1, h2⟩ := testRoute_agrees_with_route decisionText d hr
      exact ⟨by rw [h1, hag], h2⟩

/-! Model discovery service (`ModelDiscoveryService`). -/

/-- JS `s.startsWith(p)`. -/
def strStartsWith (s p : String) : Bool :=
  decide (p.toList <+: s.toList)

/-- Price pair of a catalog entry: the `parseFloat` values of the pricing
strings `prompt` and `completion`, modelled as rationals. -/
structure Pricing where
  prompt : ℚ
  completion : ℚ
deriving DecidableEq

/-- Architecture metadata of a catalog entry. -/
structure Architecture where
  modality : String
  input_modalities : List String
  output_modalities : List String
deriving DecidableEq

/-- One catalog entry (`OpenRouterModel`). -/
structure OpenRouterModel where
  id : String
  name : String
  description : String
  context_length : Nat
  pricing : Pricing
  architecture : Architecture
  supported_parameters : List String
deriving DecidableEq

/-- The discovery cache (`CachedModels`): the JS `Map` is modelled as an
association list in insertion order; `timestamp` and `ttl` are
milliseconds, as integers. -/
structure CachedModels where
  models : List (String × OpenRouterModel)
  timestamp : Int
  ttl : Int
deriving DecidableEq

/-- One hour in milliseconds: the TTL the service always uses. -/
def oneHourMs : Int := 60 * 60 * 1000

/-- The initial cache of the service: empty map, timestamp 0, TTL 1 hour. -/
def initialCache : CachedModels :=
  { models := [], timestamp := 0, ttl := oneHourMs }

/-- JS `Map.prototype.set`: replace the value in place when the key exists,
else append the binding. -/
def mapSet (m : List (String × OpenRouterModel)) (k : String)
    (v : OpenRouterModel) : List (String × OpenRouterModel) :=
  match m with
  | [] => [(k, v)]
  | (k', v') :: rest =>
      if k' = k then (k, v) :: rest else (k', v') :: mapSet rest k v

/-- `Map.prototype.values()`, in insertion (iteration) order. -/
def mapValues (m : List (String × OpenRouterModel)) : List OpenRouterModel :=
  m.map Prod.snd

/-- The `models` map built from the fetched `data` array. -/
def buildModelMap (data : List OpenRouterModel) : List (String × OpenRouterModel) :=
  data.foldl (fun m model => mapSet m model.id model) []

/-- `isCacheValid`: non-empty and age (`now - timestamp`) strictly below
the TTL. -/
def isCacheValid (cache : CachedModels) (now : Int) : Bool :=
  if cache.models.length = 0 then false
  else decide (now - cache.timestamp < cache.ttl)

/-- Error text prepended by the catch block of `fetchAvailableModels`. -/
def fetchErrorText : String := "Failed to fetch models from OpenRouter: "

/-- `fetchAvailableModels`, as a state transformer. The single network fetch
the call may perform is an explicit input: `Except.ok data` stands for the
parsed `data` array of a successful response, `Except.error e` for the
message of the non-OK-status or transport/parse failure thrown inside the
`try` block. The call returns its result (the mapping, or the wrapped error
it raises) together with the cache state after the call: the cache is
replaced wholesale on success and only on success. -/
def fetchAvailableModels (cache : CachedModels) (now : Int)
    (fetchResult : Except String (List OpenRouterModel)) :
    Except String (List (String × OpenRouterModel)) × CachedModels :=
  if isCacheValid cache now then (Except.ok cache.models, cache)
  else
    match fetchResult with
    | Except.ok data =>
        let models := buildModelMap data
        (Except.ok models,
         { models := models, timestamp := now, ttl := oneHourMs })
    | Except.error e => (Except.error (fetchErrorText ++ e), cache)

/-- `matchesCapability`: the fixed per-capability predicate table, one case
per recognized tag, default false. -/
def matchesCapability (model : OpenRouterModel) (capability : String) : Bool :=
  let modelId := strToLower model.id
  let modelName := strToLower model.name
  let modelDesc := strToLower model.description
  if capability = "text-generation" then
    model.architecture.output_modalities.contains "text"
  else if capability = "text-understanding" then
    model.architecture.input_modalities.contains "text"
  else if capability = "text-reasoning" then
    strIncludes modelId "opus" || strIncludes modelId "sonnet" ||
      strIncludes modelId "deepseek" || strIncludes modelDesc "reasoning" ||
      strIncludes modelDesc "advanced reasoning"
  else if capability = "text-generation-with-search" then
    strIncludes modelId "claude" &&
      (strIncludes modelDesc "search" || strIncludes modelName "websearch")
  else if capability = "text-classification" then
    strIncludes modelId "claude" || strIncludes modelId "mistral"
  else if capability = "code-generation" then
    strIncludes modelDesc "code" || strIncludes modelDesc "programming" ||
      strIncludes modelId "grok" || strIncludes modelId "claude"
  else if capability = "code-reasoning" then
    strIncludes modelDesc "code reasoning" ||
      strIncludes modelDesc "debugging" ||
      strIncludes modelId "opus" || strIncludes modelId "grok"
  else if capability = "real-time-search" then
    strIncludes modelId "grok" || strIncludes modelId "sonar" ||
      strIncludes modelDesc "real-time"
  else if capability = "social-analysis" then
    strIncludes modelId "grok" && strIncludes modelDesc "X/Twitter"
  else if capability = "vision" then
    model.architecture.input_modalities.contains "image"
  else
    false

/-- The capability tags named by the cases of the `matchesCapability`
switch. -/
def recognizedCapabilities : List String :=
  ["text-generation", "text-understanding", "text-reasoning",
   "text-generation-with-search", "text-classification", "code-generation",
   "code-reasoning", "real-time-search", "social-analysis", "vision"]

/-- A `findModel` requirement; `preference` and `minContextLength` are
optional (`undefined` is `none`). JS falsiness of `0` and of the empty
string makes no behavioural difference here: a minimum of 0 never drops a
descriptor and every id starts with the empty string. -/
structure FindModelReq where
  capability : String
  preference : Option String
  minContextLength : Option Nat
deriving DecidableEq

/-- Combined cost used by `findModel`'s comparator: prompt price plus
completion price. -/
def combinedCost (m : OpenRouterModel) : ℚ :=
  m.pricing.prompt + m.pricing.completion

/-- The `continue` chain of `findModel`'s candidate loop: a model is kept
iff no skip condition fires. -/
def keepsModel (req : FindModelReq) (m : OpenRouterModel) : Bool :=
  if !matchesCapability m req.capability then false
  else if (match req.minContextLength with
           | some n => decide (m.context_length < n)
           | none => false) then false
  else if (match req.preference with
           | some p => !(strStartsWith m.id p)
           | none => false) then false
  else true

/-- Comparator of `findModel`'s sort: strictly cheaper first. -/
def costLt (a b : OpenRouterModel) : Bool :=
  decide (combinedCost a < combinedCost b)

/-- `findModel`: obtain the catalog (cache or fetch), filter by capability,
context length and provider id, sort ascending by combined cost (stable
sort, so catalog order breaks ties) and return the first candidate; `null`
when none survive; a discovery error propagates. -/
def findModel (cache : CachedModels) (now : Int)
    (fetchResult : Except String (List OpenRouterModel)) (req : FindModelReq) :
    Except String (Option OpenRouterModel) × CachedModels :=
  let fr := fetchAvailableModels cache now fetchResult
  match fr.1 with
  | Except.error e => (Except.error e, fr.2)
  | Except.ok models =>
      let candidates := (mapValues models).filter (keepsModel req)
      match stableSort costLt candidates with
      | [] => (Except.ok none, fr.2)
      | best :: _ => (Except.ok (some best), fr.2)

/-- A `findModelComparison` requirement: capability and optional provider
only — this entry point takes no minimum context length. -/
structure ComparisonReq where
  capability : String
  preference : Option String
deriving DecidableEq

/-- The `continue` chain of `findModelComparison`'s loop. -/
def keepsComparison (req : ComparisonReq) (m : OpenRouterModel) : Bool :=
  if !matchesCapability m req.capability then false
  else if (match req.preference with
           | some p => !(strStartsWith m.id p)
           | none => false) then false
  else true

/-- `findModelComparison`: obtain the catalog and return every candidate
surviving the capability and provider filters, in catalog order, with no
cost-based filtering or reduction. -/
def findModelComparison (cache : CachedModels) (now : Int)
    (fetchResult : Except String (List OpenRouterModel)) (req : ComparisonReq) :
    Except String (List OpenRouterModel) × CachedModels :=
  let fr := fetchAvailableModels cache now fetchResult
  match fr.1 with
  | Except.error e => (Except.error e, fr.2)
  | Except.ok models =>
      (Except.ok ((mapValues models).filter (keepsComparison req)), fr.2)

/-- `clearCache`: empty the map and zero the timestamp (TTL untouched). -/
def clearCache (cache : CachedModels) : CachedModels :=
  { cache with models := [], timestamp := 0 }

/-- `getCacheAge`: `Date.now() - timestamp`. -/
def getCacheAge (cache : CachedModels) (now : Int) : Int :=
  now - cache.timestamp

/-- `getCacheSize`: number of cached entries. -/
def getCacheSize (cache : CachedModels) : Nat :=
  cache.models.length

/-! Lemmas about the discovery service. -/

lemma fetchAvailableModels_valid (cache : CachedModels) (now : Int)
    (fetchResult : Except String (List OpenRouterModel))
    (hvalid : isCacheValid cache now = true) :
    fetchAvailableModels cache now fetchResult =
      (Except.ok cache.models, cache) := by
  simp [fetchAvailableModels, hvalid]

lemma fetchAvailableModels_error (cache : CachedModels) (now : Int) (e : String)
    (hinvalid : isCacheValid cache now = false) :
    fetchAvailableModels cache now (Except.error e) =
      (Except.error (fetchErrorText ++ e), cache) := by
  simp [fetchAvailableModels, hinvalid]

lemma isCacheValid_iff (cache : CachedModels) (now : Int) :
    isCacheValid cache now = true ↔
      cache.models ≠ [] ∧ now - cache.timestamp < cache.ttl := by
  constructor
  · intro h
    by_cases hc : cache.models.length = 0
    · rw [isCacheValid, if_pos hc] at h
      exact absurd h (by simp)
    · rw [isCacheValid, if_neg hc] at h
      refine ⟨?_, by simpa using h⟩
      simpa [List.length_eq_zero] using hc
  · rintro ⟨h1, h2⟩
    rw [isCacheValid, if_neg (by simpa [List.length_eq_zero] using h1)]
    simpa using h2

lemma keepsModel_of_capability_false (req : FindModelReq) (m : OpenRouterModel)
    (hm : matchesCapability m req.capability = false) :
    keepsModel req m = false := by
  rw [keepsModel, hm]
  rfl

lemma keepsComparison_eq (req : ComparisonReq) (m : OpenRouterModel) :
    keepsComparison req m =
      (matchesCapability m req.capability &&
       (match req.preference with
        | some p => strStartsWith m.id p
        | none => true)) := by
  rw [keepsComparison]
  cases hcap : matchesCapability m req.capability <;>
    rcases req.preference with - | p <;> simp [hcap]

lemma costLt_trans (a b c : OpenRouterModel) (h1 : costLt a b = true)
    (h2 : costLt b c = true) : costLt a c = true := by
  simp only [costLt, decide_eq_true_eq] at h1 h2 ⊢
  exact lt_trans h1 h2

lemma costLt_irrefl (a : OpenRouterModel) : costLt a a = false := by
  simp [costLt]

lemma costLt_cross (a b c : OpenRouterModel) (h1 : costLt a b = true)
    (h2 : costLt c b = false) : costLt a c = true := by
  simp only [costLt, decide_eq_true_eq, decide_eq_false_iff_not, not_lt] at h1 h2 ⊢
  exact lt_of_lt_of_le h1 h2

lemma chooseFirst_isSome {α : Type} (lt : α → α → Bool) :
    ∀ (l : List α) (y : α), ∃ m, chooseFirst lt (some y) l = some m := by
  intro l
  induction l with
  | nil => exact fun y => ⟨y, rfl⟩
  | cons x l ih =>
      intro y
      simp only [chooseFirst]
      split_ifs
      · exact ih x
      · exact ih y

/-! Claims about the discovery service. -/

/-- C5: a failed refresh attempt (invalid cache, failing fetch) raises the
wrapped discovery error and leaves the cache's mapping, timestamp and TTL
exactly as they were before the call. -/
theorem fetch_failure_preserves_cache (cache : CachedModels) (now : Int)
    (e : String) (hinvalid : isCacheValid cache now = false) :
    (fetchAvailableModels cache now (Except.error e)).1 =
      Except.error (fetchErrorText ++ e) ∧
    (fetchAvailableModels cache now (Except.error e)).2.models = cache.models ∧
    (fetchAvailableModels cache now (Except.error e)).2.timestamp =
      cache.timestamp ∧
    (fetchAvailableModels cache now (Except.error e)).2.ttl = cache.ttl := by
  rw [fetchAvailableModels_error cache now e hinvalid]
  exact ⟨rfl, rfl, rfl, rfl⟩

/-- Demo architecture used by the witnesses. -/
def textArch : Architecture :=
  { modality := "text->text", input_modalities := ["text"],
    output_modalities := ["text"] }

/-- Demo catalog entry with the lower combined price. -/
def cheapModel : OpenRouterModel :=
  { id := "mistralai/mini", name := "Mini", description := "a fast model",
    context_length := 8000, pricing := { prompt := 1, completion := 2 },
    architecture := textArch, supported_parameters := [] }

/-- Demo catalog entry with the higher combined price. -/
def pricyModel : OpenRouterModel :=
  { id := "anthropic/claude-3-opus", name := "Claude 3 Opus",
    description := "advanced reasoning model", context_length := 200000,
    pricing := { prompt := 10, completion := 10 },
    architecture := textArch, supported_parameters := [] }

/-- Demo fetched `data` array (the pricier entry first in catalog order). -/
def demoCatalog : List OpenRouterModel := [pricyModel, cheapModel]

/-- A populated demo cache (timestamp 0, TTL one hour). -/
def staleCache : CachedModels :=
  { models := [("anthropic/claude-3-opus", pricyModel)], timestamp := 0,
    ttl := oneHourMs }

/-- Witness for C5: a transport failure at a time past the TTL raises the
wrapped error and leaves the populated cache untouched. -/
theorem fetch_failure_preserves_cache_witness :
    (fetchAvailableModels staleCache 9000000 (Except.error "ECONNRESET")).1 =
      Except.error (fetchErrorText ++ "ECONNRESET") ∧
    (fetchAvailableModels staleCache 9000000 (Except.error "ECONNRESET")).2.models =
      staleCache.models ∧
    (fetchAvailableModels staleCache 9000000 (Except.error "ECONNRESET")).2.timestamp =
      staleCache.timestamp ∧
    (fetchAvailableModels staleCache 9000000 (Except.error "ECONNRESET")).2.ttl =
      staleCache.ttl :=
  fetch_failure_preserves_cache staleCache 9000000 "ECONNRESET" (by decide)

/-- C6: the cache is valid exactly when it is non-empty with age strictly
below its TTL; a valid cache is served unchanged whatever the network would
have answered (no fetch is consumed), and the service's TTL is one hour
(3600000 ms). -/
theorem cache_valid_hit_serves_cache (cache : CachedModels) (now : Int) :
    (isCacheValid cache now = true ↔
      cache.models ≠ [] ∧ now - cache.timestamp < cache.ttl) ∧
    (∀ fetchResult, isCacheValid cache now = true →
      fetchAvailableModels cache now fetchResult =
        (Except.ok cache.models, cache)) ∧
    initialCache.ttl = 3600000 :=
  ⟨isCacheValid_iff cache now,
   fun fetchResult hv => fetchAvailableModels_valid cache now fetchResult hv,
   rfl⟩

/-- Witness for C6: at time 1000 the populated cache is valid and is served
unchanged even though the network would have failed. -/
theorem cache_valid_hit_serves_cache_witness :
    fetchAvailableModels staleCache 1000 (Except.error "offline") =
      (Except.ok staleCache.models, staleCache) :=
  (cache_valid_hit_serves_cache staleCache 1000).2.1
    (Except.error "offline") (by decide)

/-- Counterexample to C9 as stated: immediately after `clearCache`,
`getCacheAge` at clock value 1000 reports 1000 (now minus the zeroed
timestamp), not 0. -/
theorem clearCache_age_not_zero :
    getCacheAge (clearCache staleCache) 1000 ≠ 0 := by decide

/-- C9 (amended): `clearCache` empties the cache (`getCacheSize` 0) and
resets the timestamp to 0, so `getCacheAge` reports the whole current clock
value rather than 0, the cleared cache is never valid, and the next
`fetchAvailableModels` call refetches: it builds a fresh map on a successful
fetch and raises on a failing one instead of serving the cache. -/
theorem clearCache_spec (cache : CachedModels) (now : Int) :
    getCacheSize (clearCache cache) = 0 ∧
    (clearCache cache).timestamp = 0 ∧
    getCacheAge (clearCache cache) now = now ∧
    isCacheValid (clearCache cache) now = false ∧
    (∀ data, fetchAvailableModels (clearCache cache) now (Except.ok data) =
      (Except.ok (buildModelMap data),
       { models := buildModelMap data, timestamp := now, ttl := oneHourMs })) ∧
    (∀ e, fetchAvailableModels (clearCache cache) now (Except.error e) =
      (Except.error (fetchErrorText ++ e), clearCache cache)) := by
  have hinv : isCacheValid (clearCache cache) now = false := by
    rw [isCacheValid]
    simp [clearCache]
  refine ⟨rfl, rfl, by simp [getCacheAge, clearCache], hinv, ?_, ?_⟩
  · intro data
    simp [fetchAvailableModels, hinv]
  · intro e
    exact fetchAvailableModels_error _ now e hinv

/-- C8: `findModelComparison` returns exactly the descriptors of the fetched
catalog that satisfy the capability predicate and the provider filter when
one is specified, in catalog order — no cost step runs, and the comparison
requirement carries no minimum context length for step 3 to act on. -/
theorem findModelComparison_is_filter (cache : CachedModels) (now : Int)
    (fetchResult : Except String (List OpenRouterModel)) (req : ComparisonReq)
    (models : List (String × OpenRouterModel))
    (hfetch : (fetchAvailableModels cache now fetchResult).1 = Except.ok models) :
    (findModelComparison cache now fetchResult req).1 =
      Except.ok ((mapValues models).filter (fun m =>
        matchesCapability m req.capability &&
        (match req.preference with
         | some p => strStartsWith m.id p
         | none => true))) := by
  simp only [findModelComparison]
  rw [hfetch]
  simp only [Except.ok.injEq]
  exact List.filter_congr (fun m _ => keepsComparison_eq req m)

/-- Comparison requirement used by the C8 witness. -/
def textGenComparisonReq : ComparisonReq :=
  { capability := "text-generation", preference := some "anthropic" }

/-- Witness for C8 on the demo catalog with an anthropic provider filter. -/
theorem findModelComparison_is_filter_witness :
    (findModelComparison initialCache 0 (Except.ok demoCatalog)
        textGenComparisonReq).1 =
      Except.ok ((mapValues (buildModelMap demoCatalog)).filter (fun m =>
        matchesCapability m textGenComparisonReq.capability &&
        (match textGenComparisonReq.preference with
         | some p => strStartsWith m.id p
         | none => true))) :=
  findModelComparison_is_filter initialCache 0 (Except.ok demoCatalog)
    textGenComparisonReq (buildModelMap demoCatalog) rfl

/-- C4: once the catalog is obtained, a capability no descriptor satisfies
makes `findModel` return ok-null rather than raise; a tag outside the
recognized predicate table satisfies no descriptor at all; and when the
cache is invalid and the fetch fails, the very same call raises the wrapped
discovery error and never returns null. -/
theorem findModel_null_vs_error :
    (∀ cache now fetchResult req models,
      (fetchAvailableModels cache now fetchResult).1 = Except.ok models →
      (∀ m ∈ mapValues models, matchesCapability m req.capability = false) →
      (findModel cache now fetchResult req).1 = Except.ok none) ∧
    (∀ cap, cap ∉ recognizedCapabilities →
      ∀ m, matchesCapability m cap = false) ∧
    (∀ cache now e req, isCacheValid cache now = false →
      (findModel cache now (Except.error e) req).1 =
        Except.error (fetchErrorText ++ e)) := by
  refine ⟨?_, ?_, ?_⟩
  · intro cache now fetchResult req models hfetch hnone
    have hfil : (mapValues models).filter (keepsModel req) = [] :=
      List.filter_eq_nil_iff.mpr (fun m hm => by
        simp [keepsModel_of_capability_false req m (hnone m hm)])
    simp only [findModel, hfetch, hfil]
    rfl
  · intro cap hcap m
    simp only [recognizedCapabilities, List.mem_cons, List.not_mem_nil,
      or_false, not_or] at hcap
    obtain ⟨h1, h2, h3, h4, h5, h6, h7, h8, h9, h10⟩ := hcap
    rw [matchesCapability]
    simp only [if_neg h1, if_neg h2, if_neg h3, if_neg h4, if_neg h5,
      if_neg h6, if_neg h7, if_neg h8, if_neg h9, if_neg h10]
  · intro cache now e req hinvalid
    simp only [findModel]
    rw [fetchAvailableModels_error cache now e hinvalid]

/-- Requirement with a capability tag outside the predicate table. -/
def unknownCapReq : FindModelReq :=
  { capability := "telepathy", preference := none, minContextLength := none }

/-- Witness for C4: the unknown tag yields ok-null on the demo catalog, the
unknown tag matches no descriptor, and the failing fetch raises. -/
theorem findModel_null_vs_error_witness :
    (findModel initialCache 0 (Except.ok demoCatalog) unknownCapReq).1 =
      Except.ok none ∧
    matchesCapability cheapModel "telepathy" = false ∧
    (findModel staleCache 9000000 (Except.error "ECONNRESET") unknownCapReq).1 =
      Except.error (fetchErrorText ++ "ECONNRESET") :=
  ⟨findModel_null_vs_error.1 initialCache 0 (Except.ok demoCatalog)
      unknownCapReq (buildModelMap demoCatalog) rfl (by decide),
   findModel_null_vs_error.2.1 "telepathy" (by decide) cheapModel,
   findModel_null_vs_error.2.2 staleCache 9000000 "ECONNRESET" unknownCapReq
     (by decide)⟩

/-- C3: when discovery succeeds and at least one descriptor survives the
filters, `findModel` returns a surviving descriptor of least combined cost,
and every survivor strictly before it in catalog iteration order costs
strictly more — so ties on the least cost go to the earliest surviving
catalog position. -/
theorem findModel_cheapest_first (cache : CachedModels) (now : Int)
    (fetchResult : Except String (List OpenRouterModel)) (req : FindModelReq)
    (models : List (String × OpenRouterModel))
    (hfetch : (fetchAvailableModels cache now fetchResult).1 = Except.ok models)
    (hne : (mapValues models).filter (keepsModel req) ≠ []) :
    ∃ m l₁ l₂,
      (findModel cache now fetchResult req).1 = Except.ok (some m) ∧
      (mapValues models).filter (keepsModel req) = l₁ ++ m :: l₂ ∧
      (∀ x ∈ l₁, combinedCost m < combinedCost x) ∧
      (∀ x ∈ (mapValues models).filter (keepsModel req),
        combinedCost m ≤ combinedCost x) := by
  obtain ⟨m, hm⟩ : ∃ m, chooseFirst costLt none
      ((mapValues models).filter (keepsModel req)) = some m := by
    cases hc : (mapValues models).filter (keepsModel req) with
    | nil => exact absurd hc hne
    | cons x l =>
        obtain ⟨m, hm⟩ := chooseFirst_isSome costLt l x
        exact ⟨m, by simp [chooseFirst, hm]⟩
  obtain ⟨l₁, l₂, heq, hl₁, hall⟩ :=
    chooseFirst_none_spec costLt costLt_trans costLt_irrefl costLt_cross
      _ m hm
  refine ⟨m, l₁, l₂, ?_, heq, ?_, ?_⟩
  · simp only [findModel, hfetch]
    have hhead : (stableSort costLt
        ((mapValues models).filter (keepsModel req))).head? = some m := by
      rw [stableSort_head]
      exact hm
    cases hsort : stableSort costLt ((mapValues models).filter (keepsModel req)) with
    | nil => rw [hsort] at hhead; exact absurd hhead (by simp)
    | cons b rest =>
        rw [hsort] at hhead
        simp only [List.head?_cons, Option.some.injEq] at hhead
        simp [hhead]
  · intro x hx
    have := hl₁ x hx
    simpa [costLt] using this
  · intro x hx
    have := hall x hx
    simp only [costLt, decide_eq_false_iff_not, not_lt] at this
    exact this

/-- Requirement used by the C3 witness: plain text generation, no optional
constraints. -/
def textGenReq : FindModelReq :=
  { capability := "text-generation", preference := none,
    minContextLength := none }

/-- Witness for C3 on the demo catalog: both descriptors survive and the
least-cost characterization holds at this concrete call. -/
theorem findModel_cheapest_first_witness :
    ∃ m l₁ l₂,
      (findModel initialCache 0 (Except.ok demoCatalog) textGenReq).1 =
        Except.ok (some m) ∧
      (mapValues (buildModelMap demoCatalog)).filter (keepsModel textGenReq) =
        l₁ ++ m :: l₂ ∧
      (∀ x ∈ l₁, combinedCost m < combinedCost x) ∧
      (∀ x ∈ (mapValues (buildModelMap demoCatalog)).filter
          (keepsModel textGenReq), combinedCost m ≤ combinedCost x) :=
  findModel_cheapest_first initialCache 0 (Except.ok demoCatalog) textGenReq
    (buildModelMap demoCatalog) rfl (by decide)

end IAF
